import Mathlib

/-!
Verification of the data-wrangling exercise repository.

The development shallowly embeds the Python sources:
* `split_file` from `02-data-in-more-complex-formats/split_data.py`
  (the multi-root XML document splitter),
* `update_name` and the street-type regex search from `audit.py`,
* `get_user` / `process_map` from `users.py` and
  `06-openstreetmap-data/users.py`.

Files are modelled as lists of lines; the file system used by the
I/O-failure model is a pair of oracles (read result, write-open success).
-/

namespace SplitData

/-- `line.startswith("<?xml")` — the declaration-prefix test from
`split_data.py`; Python's `str.startswith` is prefix-of on the sequence
of characters. -/
def isDecl (line : String) : Bool := "<?xml".toList.isPrefixOf line.toList

/-- `"{}-{}".format(filename, n-1)` — the artifact name built by
`split_file`; `n` is the Python counter (a `Nat` here), and `n-1` is
computed in `Int` exactly as Python does (so `n = 0` yields `-1`). -/
def artName (filename : String) (n : Nat) : String :=
  filename ++ "-" ++ toString ((n : Int) - 1)

/-- The loop state of `split_file`: the counter `n`, the buffered
`lines`, and the artifacts written so far (name, content). -/
structure SplitSt where
  n : Nat
  buf : List String
  arts : List (String × List String)
deriving Repr, DecidableEq

/-- One iteration of the `for line in f` loop of `split_file`.

Python body:
```
lines.append(line)
if line.startswith("<?xml") and n == 0: n += 1
elif line.startswith("<?xml"):
    f = open("{}-{}".format(filename, n-1), 'w')
    if lines[-1].startswith("<?xml"):
        for l in lines[:-1]:
            f.write(l)
    lines = [lines[-1]]
    n += 1
```
Opening with mode `'w'` creates the artifact even when the guard writes
nothing, so the artifact is recorded with content `[]` in that case. -/
def split_step (filename : String) (st : SplitSt) (line : String) : SplitSt :=
  let buf := st.buf ++ [line]
  if isDecl line && st.n == 0 then
    ⟨1, buf, st.arts⟩
  else if isDecl line then
    let content := if isDecl (buf.getLast?.getD "") then buf.dropLast else []
    ⟨st.n + 1, [buf.getLast?.getD ""], st.arts ++ [(artName filename st.n, content)]⟩
  else
    ⟨st.n, buf, st.arts⟩

/-- `split_file` on the happy path (all opens succeed): run the loop
over every input line, then flush the remaining buffer to
`"{}-{}".format(filename, n-1)`.  The result is the list of artifacts
(name, content) in creation order. -/
def split_file (filename : String) (input : List String) :
    List (String × List String) :=
  let st := input.foldl (split_step filename) ⟨0, [], []⟩
  st.arts ++ [(artName filename st.n, st.buf)]

/-- Number of declaration lines in the input. -/
def countDecl (input : List String) : Nat := input.countP (fun l => isDecl l)

end SplitData

namespace SplitData

/-- The artifact names produced by the first `k` flushes, in order:
flush number `j` (0-based) happens while the counter is `j + 1`, so it
opens `artName filename (j + 1) = filename ++ "-" ++ toString j`. -/
def declNames (filename : String) (k : Nat) : List String :=
  (List.range k).map (fun j => artName filename (j + 1))

lemma countDecl_append (p q : List String) :
    countDecl (p ++ q) = countDecl p + countDecl q := by
  simp [countDecl, List.countP_append]

lemma countDecl_singleton (l : String) :
    countDecl [l] = if isDecl l then 1 else 0 := by
  simp [countDecl, List.countP_cons, List.countP_nil]

lemma isDecl_empty : isDecl "" = false := by decide

lemma countDecl_pos_of_headI {p : List String} (h : isDecl p.headI = true) :
    1 ≤ countDecl p := by
  cases p with
  | nil => simp [List.headI, isDecl_empty] at h
  | cons a t => simp [countDecl, List.countP_cons, List.headI] at h ⊢; simp [h]

lemma declNames_succ (filename : String) (k : Nat) :
    declNames filename (k + 1) = declNames filename k ++ [artName filename (k + 1)] := by
  simp [declNames, List.range_succ]

lemma split_step_decl0 (filename line : String) (st : SplitSt)
    (hd : isDecl line = true) (h0 : st.n = 0) :
    split_step filename st line = ⟨1, st.buf ++ [line], st.arts⟩ := by
  simp [split_step, hd, h0]

lemma split_step_decl (filename line : String) (st : SplitSt)
    (hd : isDecl line = true) (h0 : st.n ≠ 0) :
    split_step filename st line =
      ⟨st.n + 1, [line], st.arts ++ [(artName filename st.n, st.buf)]⟩ := by
  simp [split_step, hd, h0, List.getLast?_concat]

lemma split_step_plain (filename line : String) (st : SplitSt)
    (hd : isDecl line = false) :
    split_step filename st line = ⟨st.n, st.buf ++ [line], st.arts⟩ := by
  simp [split_step, hd]

/-- The loop invariant of `split_file`, relating the state `st` to the
prefix `p` of the input processed so far. -/
structure SplitInv (filename : String) (p : List String) (st : SplitSt) : Prop where
  hn : st.n = countDecl p
  hlen : st.arts.length = countDecl p - 1
  hnames : st.arts.map Prod.fst = declNames filename st.arts.length
  hjoin : (st.arts.map Prod.snd).flatten ++ st.buf = p
  hbuf0 : countDecl p = 0 → st.buf = p
  hbufne : p ≠ [] → st.buf ≠ []
  hartne : ∀ a ∈ st.arts, a.2 ≠ []
  hheads : isDecl p.headI = true →
    isDecl st.buf.headI = true ∧ ∀ a ∈ st.arts, isDecl a.2.headI = true

theorem split_step_inv (filename : String) {p : List String} {st : SplitSt}
    (line : String) (h : SplitInv filename p st) :
    SplitInv filename (p ++ [line]) (split_step filename st line) := by
  obtain ⟨hn, hlen, hnames, hjoin, hbuf0, hbufne, hartne, hheads⟩ := h
  have hcnt : countDecl (p ++ [line]) = countDecl p + (if isDecl line then 1 else 0) := by
    rw [countDecl_append, countDecl_singleton]
  by_cases hd : isDecl line = true
  · have hcnt1 : countDecl (p ++ [line]) = countDecl p + 1 := by
      rw [hcnt]; simp [hd]
    by_cases h0 : st.n = 0
    · -- first declaration line: bump the counter, keep buffering
      have hc0 : countDecl p = 0 := by omega
      have hb : st.buf = p := hbuf0 hc0
      have ha : st.arts = [] := by
        have hl0 : st.arts.length = 0 := by omega
        exact List.length_eq_zero.mp hl0
      rw [split_step_decl0 filename line st hd h0]
      refine ⟨?_, ?_, ?_, ?_, ?_, ?_, ?_, ?_⟩
      · dsimp only; omega
      · dsimp only; simp only [ha, List.length_nil]; omega
      · simp [ha, declNames]
      · simp [ha, hb]
      · intro hcc; omega
      · intro _; simp
      · simp [ha]
      · intro hh
        refine ⟨?_, by simp [ha]⟩
        cases p with
        | nil => simpa [hb] using hd
        | cons a t =>
            exfalso
            have hp1 := countDecl_pos_of_headI (p := a :: t) hh
            omega
    · -- later declaration line: flush the buffer, restart from this line
      have hc1 : 1 ≤ countDecl p := by omega
      have hpne : p ≠ [] := by
        intro hp; rw [hp] at hc1; simp [countDecl] at hc1
      have hbne : st.buf ≠ [] := hbufne hpne
      rw [split_step_decl filename line st hd h0]
      refine ⟨?_, ?_, ?_, ?_, ?_, ?_, ?_, ?_⟩
      · dsimp only; omega
      · dsimp only; simp only [List.length_append, List.length_cons, List.length_nil]; omega
      · have hlen1 : st.arts.length + 1 = st.n := by omega
        simp only [List.map_append, List.map_cons, List.map_nil, List.length_append,
          List.length_cons, List.length_nil]
        rw [hnames, declNames_succ]
        congr 3
        omega
      · simp only [List.map_append, List.map_cons, List.map_nil, List.flatten_append,
          List.flatten_cons, List.flatten_nil]
        simp only [List.append_nil, ← List.append_assoc]
        rw [hjoin]
      · intro hcc; omega
      · intro _; simp
      · intro a haa
        rcases List.mem_append.mp haa with hmem | hmem
        · exact hartne a hmem
        · simp at hmem; rw [hmem]; exact hbne
      · intro hh
        have hh' : isDecl p.headI = true := by
          cases p with
          | nil => exact absurd rfl hpne
          | cons a t => simpa [List.headI] using hh
        obtain ⟨hbh, hah⟩ := hheads hh'
        refine ⟨by simpa [List.headI] using hd, ?_⟩
        intro a haa
        rcases List.mem_append.mp haa with hmem | hmem
        · exact hah a hmem
        · simp at hmem; rw [hmem]; exact hbh
  · -- ordinary line: just buffer it
    have hd' : isDecl line = false := by simpa using hd
    have hcnt0 : countDecl (p ++ [line]) = countDecl p := by
      rw [hcnt]; simp [hd']
    rw [split_step_plain filename line st hd']
    refine ⟨?_, ?_, ?_, ?_, ?_, ?_, ?_, ?_⟩
    · dsimp only; omega
    · dsimp only; omega
    · exact hnames
    · rw [← List.append_assoc, hjoin]
    · intro hcc
      rw [hcnt0] at hcc
      rw [hbuf0 hcc]
    · intro _; simp
    · exact hartne
    · intro hh
      cases p with
      | nil =>
          simp only [List.nil_append, List.headI] at hh
          rw [hh] at hd'; simp at hd'
      | cons a t =>
          have hh' : isDecl (a :: t).headI = true := by simpa [List.headI] using hh
          obtain ⟨hbh, hah⟩ := hheads hh'
          have hbn : st.buf ≠ [] := hbufne (by simp)
          refine ⟨?_, hah⟩
          cases hb : st.buf with
          | nil => exact absurd hb hbn
          | cons b bt => rw [hb] at hbh; simpa [List.headI] using hbh

theorem split_foldl_inv (filename : String) (input : List String) :
    ∀ (p : List String) (st : SplitSt), SplitInv filename p st →
      SplitInv filename (p ++ input) (input.foldl (split_step filename) st) := by
  induction input with
  | nil => intro p st h; simpa using h
  | cons line rest ih =>
      intro p st h
      have h' := split_step_inv filename line h
      have hmain := ih (p ++ [line]) _ h'
      simpa using hmain

theorem split_file_inv (filename : String) (input : List String) :
    SplitInv filename input (input.foldl (split_step filename) ⟨0, [], []⟩) := by
  have hinit : SplitInv filename [] ⟨0, [], []⟩ := by
    refine ⟨?_, ?_, ?_, ?_, ?_, ?_, ?_, ?_⟩ <;>
      simp [countDecl, declNames, List.headI, isDecl_empty]
  simpa using split_foldl_inv filename input [] ⟨0, [], []⟩ hinit

/-- `split_file` unfolded to its loop state. -/
lemma split_file_eq (f : String) (input : List String) :
    split_file f input =
      (input.foldl (split_step f) ⟨0, [], []⟩).arts ++
        [(artName f (input.foldl (split_step f) ⟨0, [], []⟩).n,
          (input.foldl (split_step f) ⟨0, [], []⟩).buf)] := rfl

lemma artName_succ (f : String) (j : Nat) :
    artName f (j + 1) = f ++ "-" ++ toString (j : Int) := by
  have hx : ((j + 1 : Nat) : Int) - 1 = (j : Int) := by push_cast; ring
  rw [artName, hx]

lemma declNames_eq (f : String) (k : Nat) :
    declNames f k = (List.range k).map (fun j : Nat => f ++ "-" ++ toString (j : Int)) := by
  unfold declNames
  exact List.map_congr_left (fun j _ => artName_succ f j)

lemma artName_zero (f : String) : artName f 0 = f ++ "--1" := by
  have hx : ((0 : Nat) : Int) - 1 = -1 := by norm_num
  have hy : toString (-1 : Int) = "-1" := by decide
  have hz : "-" ++ "-1" = "--1" := by decide
  rw [artName, hx, hy, String.append_assoc, hz]

end SplitData

namespace SplitData

/-- C1: a source blob with `k ≥ 1` declaration lines is split into
exactly `k` artifacts, named `filename ++ "-" ++ toString n` for
`n = 0 .. k-1`, in the order the declaration lines appear. -/
theorem split_file_count_and_names (f : String) (input : List String) (k : Nat)
    (hk : countDecl input = k) (h1 : 1 ≤ k) :
    (split_file f input).length = k ∧
    (split_file f input).map Prod.fst =
      (List.range k).map (fun j : Nat => f ++ "-" ++ toString (j : Int)) := by
  have hinv := split_file_inv f input
  rw [split_file_eq]
  constructor
  · have hl := hinv.hlen
    simp only [List.length_append, List.length_cons, List.length_nil]
    omega
  · rw [List.map_append]
    simp only [List.map_cons, List.map_nil]
    rw [hinv.hnames]
    have hl : (input.foldl (split_step f) ⟨0, [], []⟩).arts.length = k - 1 := by
      have := hinv.hlen; omega
    have hnk : (input.foldl (split_step f) ⟨0, [], []⟩).n = k := by
      have := hinv.hn; omega
    rw [hl, hnk]
    obtain ⟨m, rfl⟩ : ∃ m, k = m + 1 := ⟨k - 1, by omega⟩
    rw [Nat.add_sub_cancel, ← declNames_succ, declNames_eq]

/-- Witness for C1 on a three-line blob with two declaration lines. -/
theorem split_file_count_and_names_witness :
    countDecl ["<?xml a", "x", "<?xml b"] = 2 ∧ 1 ≤ 2 ∧
    ((split_file "f" ["<?xml a", "x", "<?xml b"]).length = 2 ∧
     (split_file "f" ["<?xml a", "x", "<?xml b"]).map Prod.fst =
       (List.range 2).map (fun j : Nat => "f" ++ "-" ++ toString (j : Int))) :=
  ⟨by decide, by decide,
    split_file_count_and_names "f" ["<?xml a", "x", "<?xml b"] 2 (by decide) (by decide)⟩

/-- C2: concatenating the contents of all artifacts, in ordinal order,
reproduces the input blob line-for-line. -/
theorem split_file_concat (f : String) (input : List String) :
    ((split_file f input).map Prod.snd).flatten = input := by
  have hinv := split_file_inv f input
  rw [split_file_eq, List.map_append]
  simp only [List.map_cons, List.map_nil, List.flatten_append, List.flatten_cons,
    List.flatten_nil, List.append_nil]
  exact hinv.hjoin

/-- C3 counterexample: a blob with no declaration line yields an
artifact whose first line does not match the declaration prefix, so the
claim is false for arbitrary blobs. -/
theorem split_file_heads_counterexample :
    (split_file "f" ["hello"]).map Prod.snd = [["hello"]] ∧ isDecl "hello" = false := by
  decide

/-- C3 (amended): if the blob's first line matches the declaration
prefix, then every artifact's first line matches it. -/
theorem split_file_heads (f : String) (input : List String)
    (h : isDecl input.headI = true) :
    ∀ a ∈ split_file f input, isDecl a.2.headI = true := by
  have hinv := split_file_inv f input
  obtain ⟨hbh, hah⟩ := hinv.hheads h
  rw [split_file_eq]
  intro a ha
  rcases List.mem_append.mp ha with hm | hm
  · exact hah a hm
  · simp only [List.mem_cons, List.not_mem_nil, or_false] at hm
    rw [hm]
    exact hbh

/-- Witness for the amended C3 on a single-declaration blob. -/
theorem split_file_heads_witness :
    isDecl (List.headI ["<?xml a"]) = true ∧
    isDecl (("f-0", ["<?xml a"]) : String × List String).2.headI = true :=
  ⟨by decide, split_file_heads "f" ["<?xml a"] (by decide) ("f-0", ["<?xml a"]) (by decide)⟩

/-- C4 counterexample: on the empty blob the final flush writes zero
lines, so one (empty) artifact is produced and the claim fails. -/
theorem split_file_no_empty_counterexample :
    ∃ a ∈ split_file "f" [], a.2 = [] := by decide

/-- C4 (amended): on a nonempty blob, every artifact is nonempty — every
flush writes at least one line. -/
theorem split_file_no_empty (f : String) (input : List String) (h : input ≠ []) :
    ∀ a ∈ split_file f input, a.2 ≠ [] := by
  have hinv := split_file_inv f input
  rw [split_file_eq]
  intro a ha
  rcases List.mem_append.mp ha with hm | hm
  · exact hinv.hartne a hm
  · simp only [List.mem_cons, List.not_mem_nil, or_false] at hm
    rw [hm]
    exact hinv.hbufne h

/-- Witness for the amended C4 on a one-line blob. -/
theorem split_file_no_empty_witness :
    (["x"] : List String) ≠ [] ∧
    (("f--1", ["x"]) : String × List String).2 ≠ [] :=
  ⟨by decide, split_file_no_empty "f" ["x"] (by decide) ("f--1", ["x"]) (by decide)⟩

/-- C5: a blob with zero declaration lines is not an error: exactly one
artifact is produced, containing the whole input. -/
theorem split_file_no_decl (f : String) (input : List String)
    (h : countDecl input = 0) :
    split_file f input = [(f ++ "--1", input)] := by
  have hinv := split_file_inv f input
  have ha : (input.foldl (split_step f) ⟨0, [], []⟩).arts = [] := by
    refine List.length_eq_zero.mp ?_
    have := hinv.hlen; omega
  have hn0 : (input.foldl (split_step f) ⟨0, [], []⟩).n = 0 := by
    have := hinv.hn; omega
  rw [split_file_eq, ha, hn0, artName_zero, hinv.hbuf0 h, List.nil_append]

/-- Witness for C5 on a two-line blob without declarations. -/
theorem split_file_no_decl_witness :
    countDecl ["a", "b"] = 0 ∧
    split_file "f" ["a", "b"] = [("f" ++ "--1", ["a", "b"])] :=
  ⟨by decide, split_file_no_decl "f" ["a", "b"] (by decide)⟩

/-- C7: if the blob ends on a declaration line and has a declaration
line before it, the final artifact contains exactly that last line. -/
theorem split_file_last_line (f : String) (init : List String) (line : String)
    (hd : isDecl line = true) (h2 : 1 ≤ countDecl init) :
    (split_file f (init ++ [line])).getLast?.map Prod.snd = some [line] := by
  rw [split_file_eq, List.foldl_append]
  have hn1 := (split_file_inv f init).hn
  have h0 : (init.foldl (split_step f) ⟨0, [], []⟩).n ≠ 0 := by omega
  rw [List.foldl_cons, List.foldl_nil, split_step_decl f line _ hd h0]
  simp

/-- Witness for C7 on a blob of two declaration lines. -/
theorem split_file_last_line_witness :
    isDecl "<?xml b" = true ∧ 1 ≤ countDecl ["<?xml a"] ∧
    (split_file "f" (["<?xml a"] ++ ["<?xml b"])).getLast?.map Prod.snd =
      some ["<?xml b"] :=
  ⟨by decide, by decide, split_file_last_line "f" ["<?xml a"] "<?xml b" (by decide) (by decide)⟩

/-- C8: on the empty blob, the loop never runs, the counter is still 0
at end-of-input, and the single flush creates one artifact named
`filename ++ "--1"` (from `n - 1 = -1`) with empty content. -/
theorem split_file_empty (f : String) : split_file f [] = [(f ++ "--1", [])] := by
  rw [split_file_eq]
  simp only [List.foldl_nil]
  rw [artName_zero, List.nil_append]

/-- Outcome of running the body of `split_file`'s `try` block against a
file-system model: the artifacts created (with their final contents),
the write-open attempts in order (recorded as the counter value `n` at
the attempt — the attempted name is `artName filename n`), and whether
an exception was raised inside the `try` block. -/
structure RunOut where
  arts : List (String × List String)
  att : List Nat
  exc : Bool
deriving Repr, DecidableEq

/-- The `try`-block body of `split_file`, run against a write-open
oracle `ow` (`ow name = false` means `open(name, 'w')` raises).  A
failing open aborts the scan at once; a successful open proceeds with
the state transition of `split_step`. -/
def split_run (f : String) (ow : String → Bool) :
    List String → SplitSt → RunOut
  | [], st =>
      if ow (artName f st.n) then
        ⟨st.arts ++ [(artName f st.n, st.buf)], [st.n], false⟩
      else ⟨st.arts, [st.n], true⟩
  | line :: rest, st =>
      if isDecl line && st.n != 0 then
        if ow (artName f st.n) then
          let r := split_run f ow rest (split_step f st line)
          ⟨r.arts, st.n :: r.att, r.exc⟩
        else ⟨st.arts, [st.n], true⟩
      else split_run f ow rest (split_step f st line)

/-- Observable outcome of a full `split_file` call: artifacts left on
disk, messages printed, and whether an exception escaped to the caller. -/
structure SplitIOResult where
  arts : List (String × List String)
  msgs : List String
  raised : Bool
deriving Repr, DecidableEq

/-- `split_file` with its `try/except` handler, against a file-system
model: `orod` is the outcome of `open(filename, "r")` (`none` = the
open raises) and `ow` tells whether each `open(name, 'w')` succeeds.
The bare `except:` catches every failure and prints `cant open`;
nothing is re-raised and no artifact is deleted. -/
def split_file_io (f : String) (orod : Option (List String))
    (ow : String → Bool) : SplitIOResult :=
  match orod with
  | none => ⟨[], ["cant open"], false⟩
  | some input =>
      let r := split_run f ow input ⟨0, [], []⟩
      ⟨r.arts, if r.exc then ["cant open"] else [], false⟩

/-- The write-open attempts (as counter values) of a `split_file` call. -/
def splitAttempts (f : String) (orod : Option (List String))
    (ow : String → Bool) : List Nat :=
  match orod with
  | none => []
  | some input => (split_run f ow input ⟨0, [], []⟩).att

lemma split_step_n_le (f : String) (st : SplitSt) (line : String) :
    st.n ≤ (split_step f st line).n := by
  by_cases h1 : isDecl line = true
  · by_cases h2 : st.n = 0
    · rw [split_step_decl0 f line st h1 h2]; omega
    · rw [split_step_decl f line st h1 h2]; dsimp only; omega
  · rw [split_step_plain f line st (by simpa using h1)]

lemma split_step_arts_eq (f : String) (st : SplitSt) (line : String)
    (h : isDecl line = false ∨ st.n = 0) :
    (split_step f st line).arts = st.arts := by
  rcases h with h | h
  · rw [split_step_plain f line st h]
  · by_cases h1 : isDecl line = true
    · rw [split_step_decl0 f line st h1 h]
    · rw [split_step_plain f line st (by simpa using h1)]

lemma split_run_cons_flush_ok (f : String) (ow : String → Bool)
    (line : String) (rest : List String) (st : SplitSt)
    (hd : isDecl line = true) (h0 : st.n ≠ 0)
    (how : ow (artName f st.n) = true) :
    split_run f ow (line :: rest) st =
      ⟨(split_run f ow rest (split_step f st line)).arts,
       st.n :: (split_run f ow rest (split_step f st line)).att,
       (split_run f ow rest (split_step f st line)).exc⟩ := by
  simp [split_run, hd, h0, how]

lemma split_run_cons_flush_fail (f : String) (ow : String → Bool)
    (line : String) (rest : List String) (st : SplitSt)
    (hd : isDecl line = true) (h0 : st.n ≠ 0)
    (how : ow (artName f st.n) = false) :
    split_run f ow (line :: rest) st = ⟨st.arts, [st.n], true⟩ := by
  simp [split_run, hd, h0, how]

lemma split_run_cons_plain (f : String) (ow : String → Bool)
    (line : String) (rest : List String) (st : SplitSt)
    (h : isDecl line = false ∨ st.n = 0) :
    split_run f ow (line :: rest) st = split_run f ow rest (split_step f st line) := by
  rcases h with h | h
  · simp [split_run, h]
  · simp [split_run, h]

lemma split_run_att_lb (f : String) (ow : String → Bool) :
    ∀ (rest : List String) (st : SplitSt) (m : Nat),
      m ∈ (split_run f ow rest st).att → st.n ≤ m := by
  intro rest
  induction rest with
  | nil =>
      intro st m hm
      unfold split_run at hm
      by_cases how : ow (artName f st.n) = true
      · rw [if_pos how] at hm; simp at hm; omega
      · rw [if_neg how] at hm; simp at hm; omega
  | cons line rest ih =>
      intro st m hm
      by_cases hd : isDecl line = true
      · by_cases h0 : st.n = 0
        · rw [split_run_cons_plain f ow line rest st (Or.inr h0)] at hm
          have := ih _ m hm
          have hle := split_step_n_le f st line
          omega
        · by_cases how : ow (artName f st.n) = true
          · rw [split_run_cons_flush_ok f ow line rest st hd h0 how] at hm
            simp at hm
            rcases hm with hm | hm
            · omega
            · have := ih _ m hm
              have hle := split_step_n_le f st line
              omega
          · rw [split_run_cons_flush_fail f ow line rest st hd h0
              (by simpa using how)] at hm
            simp at hm
            omega
      · rw [split_run_cons_plain f ow line rest st (Or.inl (by simpa using hd))] at hm
        have := ih _ m hm
        have hle := split_step_n_le f st line
        omega

lemma split_run_att_pairwise (f : String) (ow : String → Bool) :
    ∀ (rest : List String) (st : SplitSt),
      ((split_run f ow rest st).att).Pairwise (· < ·) := by
  intro rest
  induction rest with
  | nil =>
      intro st
      unfold split_run
      by_cases how : ow (artName f st.n) = true
      · rw [if_pos how]; simp
      · rw [if_neg how]; simp
  | cons line rest ih =>
      intro st
      by_cases hd : isDecl line = true
      · by_cases h0 : st.n = 0
        · rw [split_run_cons_plain f ow line rest st (Or.inr h0)]
          exact ih _
        · by_cases how : ow (artName f st.n) = true
          · rw [split_run_cons_flush_ok f ow line rest st hd h0 how]
            refine List.Pairwise.cons ?_ (ih _)
            intro m hm
            have hlb := split_run_att_lb f ow rest (split_step f st line) m hm
            have hstep : (split_step f st line).n = st.n + 1 := by
              rw [split_step_decl f line st hd h0]
            omega
          · rw [split_run_cons_flush_fail f ow line rest st hd h0
              (by simpa using how)]
            simp
      · rw [split_run_cons_plain f ow line rest st (Or.inl (by simpa using hd))]
        exact ih _

lemma split_run_exc_iff (f : String) (ow : String → Bool) :
    ∀ (rest : List String) (st : SplitSt),
      (split_run f ow rest st).exc = true ↔
        ∃ m ∈ (split_run f ow rest st).att, ow (artName f m) = false := by
  intro rest
  induction rest with
  | nil =>
      intro st
      unfold split_run
      by_cases how : ow (artName f st.n) = true
      · rw [if_pos how]; simp [how]
      · rw [if_neg how]; simp; simpa using how
  | cons line rest ih =>
      intro st
      by_cases hd : isDecl line = true
      · by_cases h0 : st.n = 0
        · rw [split_run_cons_plain f ow line rest st (Or.inr h0)]
          exact ih _
        · by_cases how : ow (artName f st.n) = true
          · rw [split_run_cons_flush_ok f ow line rest st hd h0 how]
            dsimp only
            rw [ih]
            simp [how]
          · rw [split_run_cons_flush_fail f ow line rest st hd h0
              (by simpa using how)]
            constructor
            · intro _
              exact ⟨st.n, by simp, by simpa using how⟩
            · intro _
              rfl
      · rw [split_run_cons_plain f ow line rest st (Or.inl (by simpa using hd))]
        exact ih _

lemma split_run_arts_names (f : String) (ow : String → Bool) :
    ∀ (rest : List String) (st : SplitSt),
      (split_run f ow rest st).arts.map Prod.fst =
        st.arts.map Prod.fst ++
          (((split_run f ow rest st).att.filter
            (fun m => ow (artName f m))).map (artName f)) := by
  intro rest
  induction rest with
  | nil =>
      intro st
      unfold split_run
      by_cases how : ow (artName f st.n) = true
      · rw [if_pos how]; simp [how]
      · rw [if_neg how]; simp [how]
  | cons line rest ih =>
      intro st
      by_cases hd : isDecl line = true
      · by_cases h0 : st.n = 0
        · rw [split_run_cons_plain f ow line rest st (Or.inr h0)]
          rw [ih, split_step_arts_eq f st line (Or.inr h0)]
        · by_cases how : ow (artName f st.n) = true
          · rw [split_run_cons_flush_ok f ow line rest st hd h0 how]
            dsimp only
            rw [ih]
            rw [split_step_decl f line st hd h0]
            dsimp only
            simp [how, List.filter_cons]
          · rw [split_run_cons_flush_fail f ow line rest st hd h0
              (by simpa using how)]
            simp [how]
      · rw [split_run_cons_plain f ow line rest st (Or.inl (by simpa using hd))]
        rw [ih, split_step_arts_eq f st line (Or.inl (by simpa using hd))]

/-- C6: when opening the source blob fails, or creating any output
artifact fails, the failure is caught by the bare `except:` — the
diagnostic `cant open` is printed, no exception reaches the caller, the
artifacts on disk are exactly the ones whose creation succeeded before
the abort (no cleanup), and no open is retried (each artifact name is
attempted at most once). -/
theorem split_file_io_failure (f : String) (orod : Option (List String))
    (ow : String → Bool)
    (hfail : orod = none ∨
      ∃ m ∈ splitAttempts f orod ow, ow (artName f m) = false) :
    (split_file_io f orod ow).raised = false ∧
    (split_file_io f orod ow).msgs = ["cant open"] ∧
    (split_file_io f orod ow).arts.map Prod.fst =
      ((splitAttempts f orod ow).filter (fun m => ow (artName f m))).map (artName f) ∧
    (splitAttempts f orod ow).Nodup := by
  match orod with
  | none =>
      refine ⟨rfl, rfl, by simp [split_file_io, splitAttempts], by simp [splitAttempts]⟩
  | some input =>
      have hexc : (split_run f ow input ⟨0, [], []⟩).exc = true := by
        rcases hfail with hfail | hfail
        · exact absurd hfail (by simp)
        · exact (split_run_exc_iff f ow input ⟨0, [], []⟩).mpr hfail
      refine ⟨rfl, ?_, ?_, ?_⟩
      · simp [split_file_io, hexc]
      · have hna := split_run_arts_names f ow input ⟨0, [], []⟩
        simpa [split_file_io, splitAttempts] using hna
      · have hpw := split_run_att_pairwise f ow input ⟨0, [], []⟩
        simp only [splitAttempts]
        exact hpw.imp (fun h => Nat.ne_of_lt h)

/-- Witness for C6: the read-open of the source blob fails. -/
theorem split_file_io_failure_witness :
    (split_file_io "f" none (fun _ => true)).raised = false ∧
    (split_file_io "f" none (fun _ => true)).msgs = ["cant open"] ∧
    (split_file_io "f" none (fun _ => true)).arts.map Prod.fst =
      ((splitAttempts "f" none (fun _ => true)).filter
        (fun m => (fun _ => true : String → Bool) (artName "f" m))).map (artName "f") ∧
    (splitAttempts "f" none (fun _ => true)).Nodup :=
  split_file_io_failure "f" none (fun _ => true) (Or.inl rfl)

end SplitData

namespace Audit

/-- Python word character, for the `\b` boundary in
`street_type_re = re.compile(r'\b\S+\.?$', re.IGNORECASE)`:
letters, digits and underscore. -/
def isWordChar (c : Char) : Bool := c.isAlphanum || c == '_'

/-- Python whitespace, for `\S` (space, tab, newline, carriage return,
vertical tab, form feed). -/
def isSpaceChar (c : Char) : Bool :=
  c == ' ' || c == '\t' || c == '\n' || c == '\r' ||
    c == Char.ofNat 11 || c == Char.ofNat 12

/-- `\b` before the first matched character: at the start of the string
it requires a word character; elsewhere the previous character and the
matched one must differ in word-ness. -/
def boundaryAt (prev : Option Char) (c : Char) : Bool :=
  match prev with
  | none => isWordChar c
  | some p => isWordChar p != isWordChar c

/-- `street_type_re.search(name)`: since `\S+\.?` must reach the `$`
anchor, a match starting at position `i` exists exactly when every
character from `i` to the end is non-whitespace (at least one) and a
word boundary holds at `i`; `search` returns the leftmost such match,
and `m.group()` is that whole suffix (the optional dot is inside the
match). -/
def searchFrom : Option Char → List Char → Option (List Char)
  | _, [] => none
  | prev, c :: rest =>
      if boundaryAt prev c && (c :: rest).all (fun d => !(isSpaceChar d)) then
        some (c :: rest)
      else searchFrom (some c) rest

/-- `street_type_re.search(name)` on a `String`, returning `m.group()`. -/
def street_type_search (name : String) : Option String :=
  (searchFrom none name.toList).map (fun l => String.mk l)

/-- `update_name(name, mapping)` from `audit.py`:
```
m = street_type_re.search(name)
if m:
    street_type = m.group()
    name.replace(street_type, mapping[street_type])
return name
```
`name.replace(...)` builds a new string that is immediately discarded
(Python strings are immutable and the result is not bound);
`mapping[street_type]` raises `KeyError` (modelled as `Except.error`)
when the street type is not a key of the dict. -/
def update_name (name : String) (mapping : List (String × String)) :
    Except Unit String :=
  match street_type_search name with
  | some street_type =>
      match mapping.lookup street_type with
      | some repl =>
          let _discarded := name.replace street_type repl
          Except.ok name
      | none => Except.error ()
  | none => Except.ok name

/-- C9: whenever the final token matched by `street_type_re` is a key
of the mapping, `update_name` returns its input unchanged — the
replacement string is computed and discarded, so `update_name` is the
identity on such names. -/
theorem update_name_id (name : String) (mapping : List (String × String))
    (t : String) (ht : street_type_search name = some t)
    (r : String) (hr : mapping.lookup t = some r) :
    update_name name mapping = Except.ok name := by
  unfold update_name
  rw [ht]
  dsimp only
  rw [hr]

/-- Witness for C9: `"Main St"` with the `St ↦ Street` entry of the
mapping is returned unchanged. -/
theorem update_name_id_witness :
    street_type_search "Main St" = some "St" ∧
    List.lookup "St" [("St", "Street")] = some "Street" ∧
    update_name "Main St" [("St", "Street")] = Except.ok "Main St" :=
  ⟨by decide, by decide,
    update_name_id "Main St" [("St", "Street")] "St" (by decide) "Street" (by decide)⟩

end Audit

namespace Users

/-- An XML element as consumed by `users.py`: its attribute dict and
its direct children (themselves elements). -/
inductive Element where
  | mk : List (String × String) → List Element → Element

/-- `element.attrib`. -/
def Element.attrib : Element → List (String × String)
  | .mk a _ => a

/-- `for e in element` iterates over the direct children. -/
def Element.children : Element → List Element
  | .mk _ c => c

/-- `get_user` from the root `users.py`: collect `e.attrib['uid']` for
every direct child `e` that has a `uid` attribute. -/
def get_user (element : Element) : Finset String :=
  element.children.foldl
    (fun users e =>
      match e.attrib.lookup "uid" with
      | some uid => insert uid users
      | none => users) ∅

/-- `get_user` from `06-openstreetmap-data/users.py`: additionally
collect the element's own `uid` attribute. -/
def get_user06 (element : Element) : Finset String :=
  let uids : Finset String :=
    match element.attrib.lookup "uid" with
    | some uid => {uid}
    | none => ∅
  element.children.foldl
    (fun acc e =>
      match e.attrib.lookup "uid" with
      | some uid => insert uid acc
      | none => acc) uids

/-- `process_map` from the root `users.py`: `users = get_user(element)`
inside the parse loop — each iteration overwrites the previous set. -/
def process_map (elements : List Element) : Finset String :=
  elements.foldl (fun _users element => get_user element) ∅

/-- `process_map` from `06-openstreetmap-data/users.py`; same
overwriting loop, over its own `get_user`. -/
def process_map06 (elements : List Element) : Finset String :=
  elements.foldl (fun _users element => get_user06 element) ∅

/-- C10: on a parse yielding at least one element, `process_map`
returns exactly the uid set collected from the final element; the sets
from all earlier elements are discarded (both copies of `users.py`). -/
theorem process_map_last (elements : List Element) (e : Element) :
    process_map (elements ++ [e]) = get_user e ∧
    process_map06 (elements ++ [e]) = get_user06 e := by
  constructor <;>
    simp [process_map, process_map06, List.foldl_append, List.foldl_cons, List.foldl_nil]

end Users

section SanityChecks
open SplitData

example :
    split_file "f" ["<?xml a", "x", "<?xml b", "y", "z"] =
      [("f-0", ["<?xml a", "x"]), ("f-1", ["<?xml b", "y", "z"])] := by
  decide

example : split_file "f" [] = [("f--1", [])] := by decide

example : split_file "f" ["hello"] = [("f--1", ["hello"])] := by decide

example :
    split_file "f" ["junk", "<?xml a", "<?xml b"] =
      [("f-0", ["junk", "<?xml a"]), ("f-1", ["<?xml b"])] := by
  decide

end SanityChecks
